import Mathlib

/-!
Verification of tbr, a to-be-read book tracker (cmd/tbr/main.go)

Shallow embedding of the persistence layer and of the display formatting of
`cmd/tbr/main.go`.

Modelling conventions:

* The SQLite database behind the `*sql.DB` handle is a value of type `Db`:
  the two tables created by `setupDb`, each a list of rows in insertion
  (rowid) order.
* A Go function `f(db, args) error` that executes a statement becomes
  `f : Db → args → Db × Option SqlError`: the store after the call and the
  returned error (`none` is Go `nil`).
* The storage medium itself is assumed to work: `db.Prepare` of the constant
  statements succeeds and the only failure of `stmt.Exec` is a constraint
  violation declared by the schema.
* The database is opened with the plain path `./test.db`, so SQLite runs with
  its default `foreign_keys = OFF`: the `foreign key(bookName)` clause is
  declared but not enforced.  Primary keys and `not null` are enforced.
* `time.Now()` is an explicit argument of `bookRead`.
* `fmt.Sprintf` with `%s` and `%d` verbs is string concatenation, `%d` being
  the signed decimal rendering `fmtD`.
* Go `string` is `String` and Go `int` is `Int`: the program does no
  arithmetic on `year`, it only stores, reads back and prints it.
* All key columns are declared `not null` and are bound from Go strings, so
  no comparison involves SQL `null`; text is compared with the default
  binary collation, which is equality of strings.
* The order of the rows a query returns is the order in which the engine
  visits them: `getToBeRead` scans `books` in rowid order; the join of
  `getRead` scans `read` through the index of its primary key, in the order
  of `bookName` (binary collation: lexicographic by code point, `collateLe`),
  and looks each name up in `books`.  SQL leaves the
  order unspecified and no claim below depends on it.
-/

namespace Tbr

/-! ## Data model -/

/-- Go struct `Book` (main.go, lines 12-18). -/
structure Book where
  name : String
  author : String
  year : Int
  bookType : String
  url : String
  deriving DecidableEq, Repr

/-- A row of table `books(name, author, year, type, hyperlink)`; the last two
columns are nullable with `default null`. -/
structure BookRow where
  name : String
  author : String
  year : Int
  type : Option String
  hyperlink : Option String
  deriving DecidableEq, Repr

/-- A row of table `read(bookName, dateRead)`. -/
structure ReadRow where
  bookName : String
  dateRead : Nat
  deriving DecidableEq, Repr

/-- The database: both tables, rows in rowid order. -/
structure Db where
  books : List BookRow
  read : List ReadRow
  deriving DecidableEq, Repr

/-- Errors a statement can raise in this model. -/
inductive SqlError where
  /-- SQLite `UNIQUE constraint failed: <table>.<column>`. -/
  | uniqueConstraint (column : String)
  deriving DecidableEq, Repr

/-- The constraints the schema of `setupDb` enforces on stored data:
`name` is the primary key of `books`, `bookName` the primary key of `read`. -/
def Db.Valid (db : Db) : Prop :=
  (db.books.map BookRow.name).Nodup ∧ (db.read.map ReadRow.bookName).Nodup

instance (db : Db) : Decidable db.Valid := by
  unfold Db.Valid; infer_instance

/-! ## Operations -/

/-- Go function `setupDb` (lines 24-37): `create table if not exists` for both tables.
`existing` is the content of the database file, `none` for a fresh file. -/
def setupDb (existing : Option Db) : Db × Option SqlError :=
  match existing with
  | some db => (db, none)
  | none => ({ books := [], read := [] }, none)

/-- Go function `insertBook` (lines 39-51):
`replace into books(name, author, year) values (?,?,?)`.
A row that conflicts on the primary key is deleted, then the new row is
inserted with the column defaults (`null`) for `type` and `hyperlink`. -/
def insertBook (db : Db) (book : Book) : Db × Option SqlError :=
  ({ db with
      books := db.books.filter (fun r => !(r.name == book.name)) ++
        [{ name := book.name, author := book.author, year := book.year,
           type := none, hyperlink := none }] },
   none)

/-- Go function `removeBook` (lines 53-69): `delete from books where books.name = ?`. -/
def removeBook (db : Db) (bookTitle : String) : Db × Option SqlError :=
  ({ db with books := db.books.filter (fun r => !(r.name == bookTitle)) }, none)

/-- Go function `bookRead` (lines 71-84):
`insert into read(bookName, dateRead) values (?,?)` with `time.Now()`.
The insert aborts on a primary-key conflict and the table is left as it was. -/
def bookRead (db : Db) (bookTitle : String) (now : Nat) : Db × Option SqlError :=
  if db.read.any (fun r => r.bookName == bookTitle) then
    (db, some (SqlError.uniqueConstraint "read.bookName"))
  else
    ({ db with read := db.read ++ [{ bookName := bookTitle, dateRead := now }] }, none)

/-- The loop `for rows.Next() { var thisBook Book; rows.Scan(..); append }`
shared by `getToBeRead` and `getRead`: each result row fills the three scanned
fields of a zero-valued `Book`. -/
def scanRows (rows : List (String × String × Int)) : List Book :=
  rows.foldl
    (fun acc row =>
      acc ++ [{ name := row.1, author := row.2.1, year := row.2.2,
                bookType := "", url := "" }])
    []

/-- Go function `getToBeRead` (lines 86-110):
`select books.name, books.author, books.year from books
 where books.name not in (select read.bookName from read)`. -/
def getToBeRead (db : Db) : List Book :=
  let sub := db.read.map (fun r => r.bookName)
  scanRows
    ((db.books.filter (fun b => !(sub.contains b.name))).map
      (fun b => (b.name, b.author, b.year)))

/-- Binary collation on the characters of two texts: lexicographic order by
code point, which is the order of their UTF-8 bytes; a proper start of a text
sorts before it. -/
def collateLe : List Char → List Char → Bool
  | [], _ => true
  | _ :: _, [] => false
  | a :: as, b :: bs =>
    if a.toNat < b.toNat then true
    else if b.toNat < a.toNat then false
    else collateLe as bs

/-- The order of the primary-key index of `read`: binary collation of
`bookName`. -/
def keyLe (a b : ReadRow) : Prop :=
  collateLe a.bookName.data b.bookName.data = true

instance : DecidableRel keyLe := fun a b => by
  unfold keyLe; infer_instance

/-- The rows of table `read` as a scan through the index of its primary key
visits them: in the order of `bookName`. -/
def readByKey (db : Db) : List ReadRow :=
  db.read.insertionSort keyLe

/-- Go function `getRead` (lines 112-137):
`select books.name, books.author, books.year
 from read join books on read.bookName = books.name`
as the nested loop the engine runs: `read` outside, visited through its
primary-key index, `books` inside. -/
def getRead (db : Db) : List Book :=
  scanRows
    ((readByKey db).flatMap (fun r =>
      (db.books.filter (fun b => r.bookName == b.name)).map
        (fun b => (b.name, b.author, b.year))))

/-- The `%d` verb of `fmt.Sprintf` on an `int`. -/
def fmtD (n : Int) : String :=
  match n with
  | Int.ofNat m => Nat.repr m
  | Int.negSucc m => "-" ++ Nat.repr (m + 1)

/-- Go `string`, under a name that stays usable next to the method `Book.String`. -/
abbrev GoString : Type := String

/-- Go method `Book.String` (lines 139-141). -/
def Book.String (b : Book) : GoString :=
  b.name ++ ", by " ++ b.author ++ " (" ++ fmtD b.year ++ ")"

/-- Go method `Book.HTML` (lines 143-157). -/
def Book.HTML (b : Book) : GoString :=
  let output :=
    if b.url != "" then
      "<a href=\"" ++ b.url ++ "\"><em>" ++ b.name ++ "</em></a>, by  " ++ b.author ++
        " (" ++ fmtD b.year ++ ")"
    else
      "<em>" ++ b.name ++ "</em>, by " ++ b.author ++ " (" ++ fmtD b.year ++ ")"
  if b.bookType != "" && b.bookType != "book" then
    output ++ " [" ++ b.bookType ++ "]"
  else
    output

/-- The store operation selected by the subcommand in `main` (lines 191-198). -/
inductive Command where
  | add (title author : String) (year : Int)
  | remove (title : String)
  | read (title : String) (now : Nat)
  deriving DecidableEq, Repr

/-- The `switch subcommand` of `main` (lines 191-198). -/
def runCommand (db : Db) (c : Command) : Db × Option SqlError :=
  match c with
  | Command.add title author year =>
      insertBook db { name := title, author := author, year := year, bookType := "", url := "" }
  | Command.remove title => removeBook db title
  | Command.read title now => bookRead db title now

/-- One invocation of the tool on an existing database file, as `main` does
it: `setupDb`, then the store operation of the subcommand.  A failing
operation aborts the process; the file keeps what the statement left. -/
def invoke (db : Db) (c : Command) : Db :=
  (runCommand (setupDb (some db)).1 c).1

/-- The store after a sequence of invocations of the tool. -/
def runAll (db : Db) (cs : List Command) : Db :=
  cs.foldl invoke db

/-- The store a first invocation finds after `setupDb` on a fresh file. -/
def emptyDb : Db := (setupDb none).1

/-- A store with two books, one of them read, and a read-event whose name has
no book row. -/
def sampleDb : Db :=
  { books := [⟨"Dune", "Frank Herbert", 1965, none, none⟩,
              ⟨"Emma", "Jane Austen", 1815, some "audiobook", some "http://x"⟩],
    read := [⟨"Dune", 5⟩, ⟨"Ghost", 7⟩] }

/-- The store after `add Dune` and `read Dune` (at time 5) on a fresh file. -/
def readDuneDb : Db :=
  { books := [⟨"Dune", "Frank Herbert", 1965, none, none⟩], read := [⟨"Dune", 5⟩] }

/-! ## Auxiliary lemmas -/

theorem foldl_scan (rows : List (String × String × Int)) (acc : List Book) :
    rows.foldl
        (fun acc row =>
          acc ++ [({ name := row.1, author := row.2.1, year := row.2.2,
                     bookType := "", url := "" } : Book)])
        acc
      = acc ++ rows.map (fun row => (⟨row.1, row.2.1, row.2.2, "", ""⟩ : Book)) := by
  induction rows generalizing acc with
  | nil => simp
  | cons row rest ih => simp [List.foldl_cons, ih]

theorem scanRows_eq_map (rows : List (String × String × Int)) :
    scanRows rows = rows.map (fun row => (⟨row.1, row.2.1, row.2.2, "", ""⟩ : Book)) := by
  unfold scanRows
  rw [foldl_scan]
  simp

theorem getToBeRead_eq (db : Db) :
    getToBeRead db =
      (db.books.filter (fun r => decide (r.name ∉ db.read.map ReadRow.bookName))).map
        (fun r => (⟨r.name, r.author, r.year, "", ""⟩ : Book)) := by
  unfold getToBeRead
  simp only [scanRows_eq_map, List.map_map]
  congr 1
  apply List.filter_congr
  intro r _
  by_cases h : r.name ∈ db.read.map ReadRow.bookName
  · have h2 := h
    simp only [List.mem_map] at h2
    simp [h, h2]
  · have h2 := h
    simp only [List.mem_map, not_exists, not_and] at h2
    simp [h, h2]

theorem readByKey_perm (db : Db) : (readByKey db).Perm db.read :=
  List.perm_insertionSort _ _

theorem mem_readByKey (db : Db) (e : ReadRow) : e ∈ readByKey db ↔ e ∈ db.read :=
  (readByKey_perm db).mem_iff

theorem readByKey_names_perm (db : Db) :
    ((readByKey db).map ReadRow.bookName).Perm (db.read.map ReadRow.bookName) :=
  (readByKey_perm db).map _

theorem getRead_eq (db : Db) :
    getRead db =
      (readByKey db).flatMap (fun e =>
        (db.books.filter (fun r => e.bookName == r.name)).map
          (fun r => (⟨r.name, r.author, r.year, "", ""⟩ : Book))) := by
  unfold getRead
  simp only [scanRows_eq_map, List.map_flatMap, List.map_map]
  rfl

theorem filter_key_absent {α : Type} (f : α → String) (l : List α) (n : String)
    (hn : n ∉ l.map f) : l.filter (fun x => f x == n) = [] := by
  rw [List.filter_eq_nil_iff]
  intro x hx hfx
  exact hn (List.mem_map.mpr ⟨x, hx, by simpa using hfx⟩)

theorem filter_key_present {α : Type} (f : α → String) (l : List α)
    (hn : (l.map f).Nodup) (a : α) (ha : a ∈ l) :
    l.filter (fun x => f x == f a) = [a] := by
  induction l with
  | nil => cases ha
  | cons x rest ih =>
    rw [List.map_cons, List.nodup_cons] at hn
    rcases List.mem_cons.mp ha with hax | hax
    · subst hax
      rw [List.filter_cons_of_pos (by simp), filter_key_absent f rest (f a) hn.1]
    · have hne : f x ≠ f a := by
        intro h
        exact hn.1 (h ▸ List.mem_map_of_mem f hax)
      rw [List.filter_cons_of_neg (by simpa using hne), ih hn.2 hax]

/-- Entries of `getToBeRead` with a given name: none when the name has a
read-event, otherwise the projections of the book rows with that name. -/
theorem getToBeRead_filter_name (db : Db) (n : String) :
    (getToBeRead db).filter (fun b => b.name == n) =
      if n ∈ db.read.map ReadRow.bookName then []
      else (db.books.filter (fun r => r.name == n)).map
        (fun r => (⟨r.name, r.author, r.year, "", ""⟩ : Book)) := by
  rw [getToBeRead_eq, List.filter_map, List.filter_filter]
  split
  · rename_i h
    rw [List.filter_eq_nil_iff.mpr, List.map_nil]
    intro r _
    simp only [Function.comp, Bool.and_eq_true, beq_iff_eq, decide_eq_true_eq, not_and]
    intro hr
    subst hr
    simpa using h
  · rename_i h
    congr 1
    apply List.filter_congr
    intro r _
    by_cases hr : r.name = n
    · subst hr
      simp [h]
    · simp [hr]

theorem join_filter_name (books : List BookRow) (n : String) (l : List ReadRow)
    (hn : (l.map ReadRow.bookName).Nodup) :
    (l.flatMap (fun e =>
        (books.filter (fun r => e.bookName == r.name)).map
          (fun r => (⟨r.name, r.author, r.year, "", ""⟩ : Book)))).filter
        (fun b => b.name == n) =
      if n ∈ l.map ReadRow.bookName then
        (books.filter (fun r => r.name == n)).map
          (fun r => (⟨r.name, r.author, r.year, "", ""⟩ : Book))
      else [] := by
  induction l with
  | nil => simp
  | cons e rest ih =>
    rw [List.map_cons, List.nodup_cons] at hn
    rw [List.flatMap_cons, List.filter_append, ih hn.2, List.filter_map, List.filter_filter]
    by_cases he : e.bookName = n
    · subst he
      rw [if_neg hn.1, List.append_nil, if_pos (by simp)]
      congr 1
      apply List.filter_congr
      intro r _
      by_cases hr : r.name = e.bookName
      · simp [hr]
      · simp [hr]
    · have h0 : List.filter
          (fun r => ((fun b => b.name == n) ∘
            fun r => (⟨r.name, r.author, r.year, "", ""⟩ : Book)) r && (e.bookName == r.name))
          books = [] := by
        rw [List.filter_eq_nil_iff]
        intro r _
        simp only [Function.comp, Bool.and_eq_true, beq_iff_eq, not_and]
        intro h1 h2
        exact he (h2.trans h1)
      rw [h0, List.map_nil, List.nil_append]
      have hiff : (n ∈ List.map ReadRow.bookName (e :: rest)) ↔
          (n ∈ List.map ReadRow.bookName rest) := by
        simp only [List.map_cons, List.mem_cons]
        constructor
        · rintro (h | h)
          · exact absurd h.symm he
          · exact h
        · exact Or.inr
      by_cases hm : n ∈ List.map ReadRow.bookName rest
      · rw [if_pos hm, if_pos (hiff.mpr hm)]
      · rw [if_neg hm, if_neg (fun h => hm (hiff.mp h))]

/-- Entries of `getRead` with a given name, when `bookName` is a key of
`read`: the projections of the book rows with that name if the name has a
read-event, none otherwise. -/
theorem getRead_filter_name (db : Db) (hn : (db.read.map ReadRow.bookName).Nodup)
    (n : String) :
    (getRead db).filter (fun b => b.name == n) =
      if n ∈ db.read.map ReadRow.bookName then
        (db.books.filter (fun r => r.name == n)).map
          (fun r => (⟨r.name, r.author, r.year, "", ""⟩ : Book))
      else [] := by
  have hp := readByKey_names_perm db
  rw [getRead_eq, join_filter_name db.books n (readByKey db) (hp.nodup_iff.mpr hn)]
  by_cases hm : n ∈ db.read.map ReadRow.bookName
  · rw [if_pos hm, if_pos (hp.mem_iff.mpr hm)]
  · rw [if_neg hm, if_neg (fun h => hm (hp.mem_iff.mp h))]

theorem mem_getToBeRead (db : Db) (b : Book) :
    b ∈ getToBeRead db ↔
      ∃ r ∈ db.books, (∀ e ∈ db.read, e.bookName ≠ r.name) ∧
        b = ⟨r.name, r.author, r.year, "", ""⟩ := by
  rw [getToBeRead_eq]
  simp only [List.mem_map, List.mem_filter, decide_eq_true_eq, not_exists, not_and, ne_eq]
  constructor
  · rintro ⟨r, ⟨hr, hno⟩, rfl⟩
    exact ⟨r, hr, hno, rfl⟩
  · rintro ⟨r, hr, hno, rfl⟩
    exact ⟨r, ⟨hr, hno⟩, rfl⟩

theorem mem_getRead (db : Db) (b : Book) :
    b ∈ getRead db ↔
      ∃ r ∈ db.books, (∃ e ∈ db.read, e.bookName = r.name) ∧
        b = ⟨r.name, r.author, r.year, "", ""⟩ := by
  rw [getRead_eq]
  simp only [List.mem_flatMap, List.mem_map, List.mem_filter, beq_iff_eq, mem_readByKey]
  constructor
  · rintro ⟨e, he, r, ⟨hr, her⟩, rfl⟩
    exact ⟨r, hr, ⟨e, he, her⟩, rfl⟩
  · rintro ⟨r, hr, ⟨e, he, her⟩, rfl⟩
    exact ⟨e, he, r, ⟨hr, her⟩, rfl⟩

theorem count_eq_one_of_filter_name (l : List Book) (b : Book)
    (h : l.filter (fun x => x.name == b.name) = [b]) : l.count b = 1 := by
  have hc : List.count b (l.filter (fun x => x.name == b.name)) = List.count b l :=
    List.count_filter (by simp)
  rw [← hc, h]
  simp

theorem bookRead_books (db : Db) (n : String) (now : Nat) :
    (bookRead db n now).1.books = db.books := by
  unfold bookRead
  split <;> rfl

theorem bookRead_name_mem (db : Db) (n : String) (now : Nat) :
    n ∈ (bookRead db n now).1.read.map ReadRow.bookName := by
  unfold bookRead
  split
  · rename_i h
    obtain ⟨e, he, hen⟩ := List.any_eq_true.mp h
    exact List.mem_map.mpr ⟨e, he, by simpa using hen⟩
  · simp

theorem bookRead_valid (db : Db) (hv : db.Valid) (n : String) (now : Nat) :
    (bookRead db n now).1.Valid := by
  unfold bookRead
  split
  · exact hv
  · rename_i h
    refine ⟨hv.1, ?_⟩
    have hnot : n ∉ db.read.map ReadRow.bookName := by
      intro hm
      obtain ⟨e, he, hen⟩ := List.mem_map.mp hm
      exact h (List.any_eq_true.mpr ⟨e, he, by simpa using hen⟩)
    simp only [List.map_append, List.map_cons, List.map_nil]
    rw [List.nodup_append]
    refine ⟨hv.2, List.nodup_singleton _, ?_⟩
    intro x hx hx2
    rw [List.mem_singleton] at hx2
    exact hnot (hx2 ▸ hx)

theorem insertBook_filter_name (db : Db) (b : Book) :
    (insertBook db b).1.books.filter (fun r => r.name == b.name) =
      [⟨b.name, b.author, b.year, none, none⟩] := by
  unfold insertBook
  simp only [List.filter_append, List.filter_filter]
  rw [List.filter_eq_nil_iff.mpr]
  · simp
  · intro r _
    simp

theorem insertBook_valid (db : Db) (hv : db.Valid) (b : Book) :
    (insertBook db b).1.Valid := by
  refine ⟨?_, hv.2⟩
  unfold insertBook
  simp only [List.map_append, List.map_cons, List.map_nil]
  rw [List.nodup_append]
  refine ⟨(hv.1.sublist ((List.filter_sublist _).map _)), List.nodup_singleton _, ?_⟩
  intro x hx hx2
  rw [List.mem_singleton] at hx2
  subst hx2
  obtain ⟨r, hr, hrn⟩ := List.mem_map.mp hx
  have := (List.mem_filter.mp hr).2
  simp [hrn] at this

theorem removeBook_valid (db : Db) (hv : db.Valid) (n : String) :
    (removeBook db n).1.Valid :=
  ⟨hv.1.sublist ((List.filter_sublist _).map _), hv.2⟩

theorem invoke_valid (db : Db) (hv : db.Valid) (c : Command) : (invoke db c).Valid := by
  cases c with
  | add title author year => exact insertBook_valid db hv _
  | remove title => exact removeBook_valid db hv title
  | read title now => exact bookRead_valid db hv title now

theorem runAll_valid (cs : List Command) (db : Db) (hv : db.Valid) :
    (runAll db cs).Valid := by
  induction cs generalizing db with
  | nil => exact hv
  | cons c rest ih => exact ih (invoke db c) (invoke_valid db hv c)

theorem invoke_read_mono (db : Db) (c : Command) (e : ReadRow) (he : e ∈ db.read) :
    e ∈ (invoke db c).read := by
  cases c with
  | add title author year => exact he
  | remove title => exact he
  | read title now =>
    show e ∈ (bookRead db title now).1.read
    unfold bookRead
    split
    · exact he
    · exact List.mem_append_left _ he

theorem runAll_read_mono (cs : List Command) (db : Db) (e : ReadRow) (he : e ∈ db.read) :
    e ∈ (runAll db cs).read := by
  induction cs generalizing db with
  | nil => exact he
  | cons c rest ih => exact ih (invoke db c) (invoke_read_mono db c e he)

theorem readRow_eq_of_key (l : List ReadRow) (hn : (l.map ReadRow.bookName).Nodup)
    (e e2 : ReadRow) (he : e ∈ l) (he2 : e2 ∈ l) (hk : e2.bookName = e.bookName) :
    e2 = e :=
  List.inj_on_of_nodup_map hn he2 he hk

/-! ## Claims -/

/-- C1. In a store whose tables are keyed by `name` and `bookName`,
`getToBeRead` lists exactly the book rows whose name has no read-event and
`getRead` exactly those whose name has one, each with the name, author and
year of the row; every stored book is the one and only entry of its name
across both lists; a read-event whose name has no book row is listed in
neither. -/
theorem getToBeRead_getRead_partition (db : Db) (hv : db.Valid) :
    (∀ b : Book, b ∈ getToBeRead db ↔
      ∃ r ∈ db.books, (∀ e ∈ db.read, e.bookName ≠ r.name) ∧
        b = ⟨r.name, r.author, r.year, "", ""⟩) ∧
    (∀ b : Book, b ∈ getRead db ↔
      ∃ r ∈ db.books, (∃ e ∈ db.read, e.bookName = r.name) ∧
        b = ⟨r.name, r.author, r.year, "", ""⟩) ∧
    (∀ r ∈ db.books,
      (getToBeRead db ++ getRead db).filter (fun b => b.name == r.name) =
        [⟨r.name, r.author, r.year, "", ""⟩]) ∧
    (∀ r ∈ db.books,
      ((⟨r.name, r.author, r.year, "", ""⟩ : Book) ∈ getToBeRead db ∧
        (⟨r.name, r.author, r.year, "", ""⟩ : Book) ∉ getRead db) ∨
      ((⟨r.name, r.author, r.year, "", ""⟩ : Book) ∉ getToBeRead db ∧
        (⟨r.name, r.author, r.year, "", ""⟩ : Book) ∈ getRead db)) ∧
    (∀ e ∈ db.read, (∀ r ∈ db.books, r.name ≠ e.bookName) →
      ∀ b ∈ getToBeRead db ++ getRead db, b.name ≠ e.bookName) := by
  refine ⟨mem_getToBeRead db, mem_getRead db, ?_, ?_, ?_⟩
  · intro r hr
    rw [List.filter_append, getToBeRead_filter_name, getRead_filter_name db hv.2,
      filter_key_present BookRow.name db.books hv.1 r hr]
    by_cases hm : r.name ∈ db.read.map ReadRow.bookName
    · simp [hm]
    · simp [hm]
  · intro r hr
    by_cases hm : ∃ e ∈ db.read, e.bookName = r.name
    · right
      constructor
      · rw [mem_getToBeRead]
        rintro ⟨r2, _, hno, heq⟩
        obtain ⟨e, he, her⟩ := hm
        have hname : r.name = r2.name := congrArg Book.name heq
        exact hno e he (her.trans hname)
      · exact (mem_getRead db _).mpr ⟨r, hr, hm, rfl⟩
    · left
      constructor
      · refine (mem_getToBeRead db _).mpr ⟨r, hr, ?_, rfl⟩
        intro e he her
        exact hm ⟨e, he, her⟩
      · rw [mem_getRead]
        rintro ⟨r2, _, ⟨e, he, her⟩, heq⟩
        have hname : r.name = r2.name := congrArg Book.name heq
        exact hm ⟨e, he, her.trans hname.symm⟩
  · intro e _ hno b hb hname
    rcases List.mem_append.mp hb with h | h
    · obtain ⟨r, hr, _, rfl⟩ := (mem_getToBeRead db b).mp h
      exact hno r hr hname
    · obtain ⟨r, hr, _, rfl⟩ := (mem_getRead db b).mp h
      exact hno r hr hname

/-- Witness of C1 on `sampleDb`. -/
theorem getToBeRead_getRead_partition_witness :
    sampleDb.Valid ∧
    ((∀ b : Book, b ∈ getToBeRead sampleDb ↔
      ∃ r ∈ sampleDb.books, (∀ e ∈ sampleDb.read, e.bookName ≠ r.name) ∧
        b = ⟨r.name, r.author, r.year, "", ""⟩) ∧
    (∀ b : Book, b ∈ getRead sampleDb ↔
      ∃ r ∈ sampleDb.books, (∃ e ∈ sampleDb.read, e.bookName = r.name) ∧
        b = ⟨r.name, r.author, r.year, "", ""⟩) ∧
    (∀ r ∈ sampleDb.books,
      (getToBeRead sampleDb ++ getRead sampleDb).filter (fun b => b.name == r.name) =
        [⟨r.name, r.author, r.year, "", ""⟩]) ∧
    (∀ r ∈ sampleDb.books,
      ((⟨r.name, r.author, r.year, "", ""⟩ : Book) ∈ getToBeRead sampleDb ∧
        (⟨r.name, r.author, r.year, "", ""⟩ : Book) ∉ getRead sampleDb) ∨
      ((⟨r.name, r.author, r.year, "", ""⟩ : Book) ∉ getToBeRead sampleDb ∧
        (⟨r.name, r.author, r.year, "", ""⟩ : Book) ∈ getRead sampleDb)) ∧
    (∀ e ∈ sampleDb.read, (∀ r ∈ sampleDb.books, r.name ≠ e.bookName) →
      ∀ b ∈ getToBeRead sampleDb ++ getRead sampleDb, b.name ≠ e.bookName)) :=
  ⟨by decide, getToBeRead_getRead_partition sampleDb (by decide)⟩

/-- C2. In a store keyed by `name` and `bookName`, for a stored book row `r`:
after `bookRead` on its name no entry of `getToBeRead` carries that name, and
`getRead` contains the book (name, author, year) exactly once, as its only
entry of that name; the call returns no error when the name had no
read-event. -/
theorem bookRead_moves_book_to_read (db : Db) (hv : db.Valid) (r : BookRow)
    (hr : r ∈ db.books) (now : Nat) :
    (∀ b ∈ getToBeRead (bookRead db r.name now).1, b.name ≠ r.name) ∧
    (getRead (bookRead db r.name now).1).count ⟨r.name, r.author, r.year, "", ""⟩ = 1 ∧
    (getRead (bookRead db r.name now).1).filter (fun b => b.name == r.name) =
      [⟨r.name, r.author, r.year, "", ""⟩] ∧
    ((∀ e ∈ db.read, e.bookName ≠ r.name) → (bookRead db r.name now).2 = none) := by
  have hv2 := bookRead_valid db hv r.name now
  have hm := bookRead_name_mem db r.name now
  have hf : (getRead (bookRead db r.name now).1).filter (fun b => b.name == r.name) =
      [⟨r.name, r.author, r.year, "", ""⟩] := by
    rw [getRead_filter_name _ hv2.2, if_pos hm, bookRead_books,
      filter_key_present BookRow.name db.books hv.1 r hr]
    rfl
  refine ⟨?_, ?_, hf, ?_⟩
  · have h0 := getToBeRead_filter_name (bookRead db r.name now).1 r.name
    rw [if_pos hm, List.filter_eq_nil_iff] at h0
    intro b hb hname
    exact h0 b hb (by simpa using hname)
  · exact count_eq_one_of_filter_name _ ⟨r.name, r.author, r.year, "", ""⟩ hf
  · intro hno
    unfold bookRead
    rw [if_neg]
    intro hany
    obtain ⟨e, he, hen⟩ := List.any_eq_true.mp hany
    exact hno e he (by simpa using hen)

/-- Witness of C2: marking the unread book `Emma` of `sampleDb` as read. -/
theorem bookRead_moves_book_to_read_witness :
    sampleDb.Valid ∧
    (⟨"Emma", "Jane Austen", 1815, some "audiobook", some "http://x"⟩ : BookRow)
      ∈ sampleDb.books ∧
    ((∀ b ∈ getToBeRead (bookRead sampleDb "Emma" 9).1, b.name ≠ "Emma") ∧
    (getRead (bookRead sampleDb "Emma" 9).1).count ⟨"Emma", "Jane Austen", 1815, "", ""⟩ = 1 ∧
    (getRead (bookRead sampleDb "Emma" 9).1).filter (fun b => b.name == "Emma") =
      [⟨"Emma", "Jane Austen", 1815, "", ""⟩] ∧
    ((∀ e ∈ sampleDb.read, e.bookName ≠ "Emma") → (bookRead sampleDb "Emma" 9).2 = none)) :=
  ⟨by decide, by decide,
    bookRead_moves_book_to_read sampleDb (by decide)
      ⟨"Emma", "Jane Austen", 1815, some "audiobook", some "http://x"⟩ (by decide) 9⟩

/-- C3, as stated, fails: `readDuneDb` is reached by adding and then reading
`Dune`; `insertBook` of `Dune` on it leaves the read-event in place, so
`getToBeRead` is empty and the book is listed by `getRead`. -/
theorem insertBook_of_read_book_not_unread :
    readDuneDb = runAll emptyDb [Command.add "Dune" "Frank Herbert" 1965, Command.read "Dune" 5] ∧
    readDuneDb.Valid ∧
    (∃ e ∈ readDuneDb.read, e.bookName = "Dune") ∧
    getToBeRead (insertBook readDuneDb ⟨"Dune", "Frank Herbert", 1965, "", ""⟩).1 = [] ∧
    ¬ ((getToBeRead (insertBook readDuneDb ⟨"Dune", "Frank Herbert", 1965, "", ""⟩).1).count
        ⟨"Dune", "Frank Herbert", 1965, "", ""⟩ = 1) ∧
    getRead (insertBook readDuneDb ⟨"Dune", "Frank Herbert", 1965, "", ""⟩).1 =
      [⟨"Dune", "Frank Herbert", 1965, "", ""⟩] := by
  decide

/-- C3, amended. In a store keyed by `name` and `bookName`, `insertBook` of a
book returns no error, leaves the read table as it was (every read-event
stays in place, with its `dateRead`) and stores one row of that name with
`type` and `hyperlink` null.  When the name has no read-event, `getToBeRead` afterwards
contains the book (name, author, year, kind and url empty) exactly once, as
its only entry of that name.  When the name has a read-event, `getToBeRead`
has no entry of that name and `getRead` has the book as its only entry of
that name. -/
theorem insertBook_listed_unread (db : Db) (hv : db.Valid) (b : Book) :
    (insertBook db b).2 = none ∧
    (insertBook db b).1.read = db.read ∧
    (insertBook db b).1.books.filter (fun r => r.name == b.name) =
      [⟨b.name, b.author, b.year, none, none⟩] ∧
    ((∀ e ∈ db.read, e.bookName ≠ b.name) →
      (getToBeRead (insertBook db b).1).count ⟨b.name, b.author, b.year, "", ""⟩ = 1 ∧
      (getToBeRead (insertBook db b).1).filter (fun x => x.name == b.name) =
        [⟨b.name, b.author, b.year, "", ""⟩]) ∧
    (∀ e ∈ db.read, e.bookName = b.name →
      e ∈ (insertBook db b).1.read ∧
      (∀ e2 ∈ (insertBook db b).1.read, e2.bookName = b.name → e2 = e) ∧
      (∀ x ∈ getToBeRead (insertBook db b).1, x.name ≠ b.name) ∧
      (getRead (insertBook db b).1).count ⟨b.name, b.author, b.year, "", ""⟩ = 1 ∧
      (getRead (insertBook db b).1).filter (fun x => x.name == b.name) =
        [⟨b.name, b.author, b.year, "", ""⟩]) := by
  have hread : (insertBook db b).1.read = db.read := rfl
  refine ⟨rfl, rfl, insertBook_filter_name db b, ?_, ?_⟩
  · intro hno
    have hnm : b.name ∉ (insertBook db b).1.read.map ReadRow.bookName := by
      rw [hread]
      intro hm
      obtain ⟨e, he, hen⟩ := List.mem_map.mp hm
      exact hno e he hen
    have hf : (getToBeRead (insertBook db b).1).filter (fun x => x.name == b.name) =
        [⟨b.name, b.author, b.year, "", ""⟩] := by
      rw [getToBeRead_filter_name, if_neg hnm, insertBook_filter_name]
      rfl
    exact ⟨count_eq_one_of_filter_name _ ⟨b.name, b.author, b.year, "", ""⟩ hf, hf⟩
  · intro e he hen
    have hm : b.name ∈ (insertBook db b).1.read.map ReadRow.bookName := by
      rw [hread]
      exact List.mem_map.mpr ⟨e, he, hen⟩
    have hf : (getRead (insertBook db b).1).filter (fun x => x.name == b.name) =
        [⟨b.name, b.author, b.year, "", ""⟩] := by
      rw [getRead_filter_name _ (insertBook_valid db hv b).2, if_pos hm,
        insertBook_filter_name]
      rfl
    refine ⟨he, ?_, ?_, count_eq_one_of_filter_name _ ⟨b.name, b.author, b.year, "", ""⟩ hf,
      hf⟩
    · intro e2 he2 hk
      exact readRow_eq_of_key db.read hv.2 e e2 he he2 (hk.trans hen.symm)
    · have h0 := getToBeRead_filter_name (insertBook db b).1 b.name
      rw [if_pos hm, List.filter_eq_nil_iff] at h0
      intro x hx hname
      exact h0 x hx (by simpa using hname)

/-- Witness of amended C3: re-adding the unread book `Emma` of `sampleDb`
with a new author and year lists it once in `getToBeRead`. -/
theorem insertBook_listed_unread_witness :
    sampleDb.Valid ∧
    (∀ e ∈ sampleDb.read, e.bookName ≠ "Emma") ∧
    (getToBeRead (insertBook sampleDb ⟨"Emma", "J. Austen", 1816, "", ""⟩).1).count
      ⟨"Emma", "J. Austen", 1816, "", ""⟩ = 1 ∧
    (getToBeRead (insertBook sampleDb ⟨"Emma", "J. Austen", 1816, "", ""⟩).1).filter
      (fun x => x.name == "Emma") = [⟨"Emma", "J. Austen", 1816, "", ""⟩] :=
  ⟨by decide, by decide,
    (insertBook_listed_unread sampleDb (by decide)
      ⟨"Emma", "J. Austen", 1816, "", ""⟩).2.2.2.1 (by decide)⟩

/-- C4. When a row `old` named like `b` is stored and differs from `b` in
author or year, `insertBook db b` returns no error, leaves exactly one row of
that name, carrying the author and year of `b` and null `type` and
`hyperlink`; the old row is gone; rows of other names are kept as they were,
in order; the read table is unchanged. -/
theorem insertBook_replaces_row (db : Db) (b : Book) (old : BookRow)
    (_hold : old ∈ db.books) (hname : old.name = b.name)
    (hdiff : old.author ≠ b.author ∨ old.year ≠ b.year) :
    (insertBook db b).2 = none ∧
    (insertBook db b).1.books.filter (fun r => r.name == b.name) =
      [⟨b.name, b.author, b.year, none, none⟩] ∧
    old ∉ (insertBook db b).1.books ∧
    (∀ r : BookRow, r.name ≠ b.name → (r ∈ (insertBook db b).1.books ↔ r ∈ db.books)) ∧
    (insertBook db b).1.books.filter (fun r => !(r.name == b.name)) =
      db.books.filter (fun r => !(r.name == b.name)) ∧
    (insertBook db b).1.read = db.read := by
  refine ⟨rfl, insertBook_filter_name db b, ?_, ?_, ?_, rfl⟩
  · intro hmem
    have h1 : old ∈ (insertBook db b).1.books.filter (fun r => r.name == b.name) :=
      List.mem_filter.mpr ⟨hmem, by simpa using hname⟩
    rw [insertBook_filter_name, List.mem_singleton] at h1
    rcases hdiff with h | h
    · exact h (by rw [h1])
    · exact h (by rw [h1])
  · intro r hne
    unfold insertBook
    simp only [List.mem_append, List.mem_filter, List.mem_singleton]
    constructor
    · rintro (⟨h, _⟩ | h)
      · exact h
      · exact absurd (by rw [h]) hne
    · intro h
      exact Or.inl ⟨h, by simpa using hne⟩
  · unfold insertBook
    simp only [List.filter_append, List.filter_filter, Bool.and_self]
    rw [List.filter_cons_of_neg (by simp)]
    simp

/-- Witness of C4: replacing the row `Emma` of `sampleDb`, which carries a
kind and a hyperlink. -/
theorem insertBook_replaces_row_witness :
    (⟨"Emma", "Jane Austen", 1815, some "audiobook", some "http://x"⟩ : BookRow)
      ∈ sampleDb.books ∧
    ((insertBook sampleDb ⟨"Emma", "J. Austen", 1816, "", ""⟩).2 = none ∧
    (insertBook sampleDb ⟨"Emma", "J. Austen", 1816, "", ""⟩).1.books.filter
      (fun r => r.name == "Emma") = [⟨"Emma", "J. Austen", 1816, none, none⟩] ∧
    (⟨"Emma", "Jane Austen", 1815, some "audiobook", some "http://x"⟩ : BookRow)
      ∉ (insertBook sampleDb ⟨"Emma", "J. Austen", 1816, "", ""⟩).1.books ∧
    (∀ r : BookRow, r.name ≠ "Emma" →
      (r ∈ (insertBook sampleDb ⟨"Emma", "J. Austen", 1816, "", ""⟩).1.books ↔
        r ∈ sampleDb.books)) ∧
    (insertBook sampleDb ⟨"Emma", "J. Austen", 1816, "", ""⟩).1.books.filter
        (fun r => !(r.name == "Emma")) =
      sampleDb.books.filter (fun r => !(r.name == "Emma")) ∧
    (insertBook sampleDb ⟨"Emma", "J. Austen", 1816, "", ""⟩).1.read = sampleDb.read) :=
  ⟨by decide,
    insertBook_replaces_row sampleDb ⟨"Emma", "J. Austen", 1816, "", ""⟩
      ⟨"Emma", "Jane Austen", 1815, some "audiobook", some "http://x"⟩
      (by decide) rfl (Or.inl (by decide))⟩

/-- C5. When the name already has a read-event, `bookRead` returns the
uniqueness violation on `read.bookName` and the store (both tables, so every
stored `dateRead`) is what it was. -/
theorem bookRead_again_fails (db : Db) (n : String) (now : Nat)
    (h : ∃ e ∈ db.read, e.bookName = n) :
    (bookRead db n now).2 = some (SqlError.uniqueConstraint "read.bookName") ∧
    (bookRead db n now).1 = db := by
  obtain ⟨e, he, hen⟩ := h
  have hany : db.read.any (fun r => r.bookName == n) = true :=
    List.any_eq_true.mpr ⟨e, he, by simpa using hen⟩
  unfold bookRead
  rw [if_pos hany]
  exact ⟨rfl, rfl⟩

/-- Witness of C5: `Dune` is already read in `sampleDb`. -/
theorem bookRead_again_fails_witness :
    (∃ e ∈ sampleDb.read, e.bookName = "Dune") ∧
    (bookRead sampleDb "Dune" 9).2 = some (SqlError.uniqueConstraint "read.bookName") ∧
    (bookRead sampleDb "Dune" 9).1 = sampleDb :=
  ⟨⟨⟨"Dune", 5⟩, by decide, rfl⟩,
    bookRead_again_fails sampleDb "Dune" 9 ⟨⟨"Dune", 5⟩, by decide, rfl⟩⟩

/-- C6. When no stored book has the name, `removeBook` returns no error and
the store afterwards equals the store before. -/
theorem removeBook_absent_noop (db : Db) (n : String)
    (h : ∀ r ∈ db.books, r.name ≠ n) :
    (removeBook db n).2 = none ∧ (removeBook db n).1 = db := by
  refine ⟨rfl, ?_⟩
  unfold removeBook
  have hf : db.books.filter (fun r => !(r.name == n)) = db.books := by
    rw [List.filter_eq_self]
    intro r hr
    simpa using h r hr
  simp only [hf]

/-- Witness of C6: `sampleDb` stores no book named `Ghost`. -/
theorem removeBook_absent_noop_witness :
    (∀ r ∈ sampleDb.books, r.name ≠ "Ghost") ∧
    (removeBook sampleDb "Ghost").2 = none ∧ (removeBook sampleDb "Ghost").1 = sampleDb :=
  ⟨by decide, removeBook_absent_noop sampleDb "Ghost" (by decide)⟩

/-- C7. For every store and name, `removeBook` returns no error, leaves no
book row of that name, keeps the rows of other names as they were, and leaves
the read table unchanged; a read-event of that name is still there, so after
re-adding a book of that name it is listed by `getRead` and no entry of
`getToBeRead` carries the name. -/
theorem removeBook_keeps_read_events (db : Db) (n : String) :
    (removeBook db n).2 = none ∧
    (∀ r ∈ (removeBook db n).1.books, r.name ≠ n) ∧
    (∀ r : BookRow, r.name ≠ n → (r ∈ (removeBook db n).1.books ↔ r ∈ db.books)) ∧
    (removeBook db n).1.books.filter (fun r => !(r.name == n)) =
      db.books.filter (fun r => !(r.name == n)) ∧
    (removeBook db n).1.read = db.read ∧
    (∀ e ∈ db.read, e.bookName = n →
      e ∈ (removeBook db n).1.read ∧
      ∀ (a : String) (y : Int),
        (⟨n, a, y, "", ""⟩ : Book) ∈
          getRead (insertBook (removeBook db n).1 ⟨n, a, y, "", ""⟩).1 ∧
        ∀ b ∈ getToBeRead (insertBook (removeBook db n).1 ⟨n, a, y, "", ""⟩).1,
          b.name ≠ n) := by
  refine ⟨rfl, ?_, ?_, ?_, rfl, ?_⟩
  · intro r hr
    have := (List.mem_filter.mp hr).2
    simpa using this
  · intro r hne
    unfold removeBook
    simp only [List.mem_filter]
    constructor
    · exact fun h => h.1
    · exact fun h => ⟨h, by simpa using hne⟩
  · unfold removeBook
    simp only [List.filter_filter, Bool.and_self]
  · intro e he hen
    refine ⟨he, ?_⟩
    intro a y
    have hrow : (⟨n, a, y, none, none⟩ : BookRow) ∈
        (insertBook (removeBook db n).1 ⟨n, a, y, "", ""⟩).1.books := by
      unfold insertBook
      simp
    constructor
    · exact (mem_getRead _ _).mpr ⟨⟨n, a, y, none, none⟩, hrow, ⟨e, he, hen⟩, rfl⟩
    · intro b hb hname
      obtain ⟨r, _, hno, rfl⟩ := (mem_getToBeRead _ b).mp hb
      exact hno e he (hen.trans hname.symm)

/-- Witness of C7 on `sampleDb`: `Dune` is read; after removing it and adding
it again it is listed by `getRead` and not by `getToBeRead`. -/
theorem removeBook_keeps_read_events_witness :
    (⟨"Dune", 5⟩ : ReadRow) ∈ (removeBook sampleDb "Dune").1.read ∧
    ∀ (a : String) (y : Int),
      (⟨"Dune", a, y, "", ""⟩ : Book) ∈
        getRead (insertBook (removeBook sampleDb "Dune").1 ⟨"Dune", a, y, "", ""⟩).1 ∧
      ∀ b ∈ getToBeRead (insertBook (removeBook sampleDb "Dune").1 ⟨"Dune", a, y, "", ""⟩).1,
        b.name ≠ "Dune" :=
  (removeBook_keeps_read_events sampleDb "Dune").2.2.2.2.2 ⟨"Dune", 5⟩ (by decide) rfl

/-- C8, the code at a book with a url: the hyperlink branch of `Book.HTML`
puts two spaces between `by` and the author, for kind `book` and for kind
`audiobook`, so the result is not the string with a single space. -/
theorem HTML_url_two_spaces :
    (⟨"Dune", "Frank Herbert", 1965, "book", "http://x"⟩ : Book).HTML =
      "<a href=\"http://x\"><em>Dune</em></a>, by  Frank Herbert (1965)" ∧
    (⟨"Dune", "Frank Herbert", 1965, "book", "http://x"⟩ : Book).HTML ≠
      "<a href=\"http://x\"><em>Dune</em></a>, by Frank Herbert (1965)" ∧
    (⟨"Dune", "Frank Herbert", 1965, "audiobook", "http://x"⟩ : Book).HTML =
      "<a href=\"http://x\"><em>Dune</em></a>, by  Frank Herbert (1965) [audiobook]" ∧
    (⟨"Dune", "Frank Herbert", 1965, "audiobook", "http://x"⟩ : Book).HTML ≠
      "<a href=\"http://x\"><em>Dune</em></a>, by Frank Herbert (1965) [audiobook]" ∧
    (⟨"Dune", "Frank Herbert", 1965, "book", ""⟩ : Book).HTML =
      "<em>Dune</em>, by Frank Herbert (1965)" ∧
    (⟨"Dune", "Frank Herbert", 1965, "book", "http://x"⟩ : Book).String =
      "Dune, by Frank Herbert (1965)" := by
  decide

/-- C9. For a book with empty url, `Book.HTML` is
`<em>name</em>, by author (year)` when the kind is empty or `book`, and that
string followed by ` [kind]` for every other kind. -/
theorem HTML_without_url (b : Book) (hurl : b.url = "") :
    ((b.bookType = "" ∨ b.bookType = "book") →
      b.HTML = "<em>" ++ b.name ++ "</em>, by " ++ b.author ++ " (" ++ fmtD b.year ++ ")") ∧
    ((b.bookType ≠ "" ∧ b.bookType ≠ "book") →
      b.HTML = "<em>" ++ b.name ++ "</em>, by " ++ b.author ++ " (" ++ fmtD b.year ++ ")" ++
        " [" ++ b.bookType ++ "]") := by
  constructor
  · intro h
    unfold Book.HTML
    rcases h with h | h
    · simp [hurl, h]
    · simp [hurl, h]
  · rintro ⟨h1, h2⟩
    unfold Book.HTML
    simp [hurl, h1, h2]

/-- Witness of C9 on concrete books: empty kind, kind `book`, another kind,
and a negative year. -/
theorem HTML_without_url_witness :
    (⟨"Dune", "Frank Herbert", 1965, "", ""⟩ : Book).HTML =
      "<em>Dune</em>, by Frank Herbert (1965)" ∧
    (⟨"Dune", "Frank Herbert", 1965, "book", ""⟩ : Book).HTML =
      "<em>Dune</em>, by Frank Herbert (1965)" ∧
    (⟨"Dune", "Frank Herbert", 1965, "audiobook", ""⟩ : Book).HTML =
      "<em>Dune</em>, by Frank Herbert (1965) [audiobook]" ∧
    (⟨"Iliad", "Homer", -750, "epic", ""⟩ : Book).HTML =
      "<em>Iliad</em>, by Homer (-750) [epic]" :=
  ⟨((HTML_without_url ⟨"Dune", "Frank Herbert", 1965, "", ""⟩ rfl).1 (Or.inl rfl)).trans
      (by decide),
    ((HTML_without_url ⟨"Dune", "Frank Herbert", 1965, "book", ""⟩ rfl).1 (Or.inr rfl)).trans
      (by decide),
    ((HTML_without_url ⟨"Dune", "Frank Herbert", 1965, "audiobook", ""⟩ rfl).2
      ⟨by decide, by decide⟩).trans (by decide),
    ((HTML_without_url ⟨"Iliad", "Homer", -750, "epic", ""⟩ rfl).2
      ⟨by decide, by decide⟩).trans (by decide)⟩

/-- C10. In every store reached from the empty store by any sequence of
commands, `bookName` is a key of the read table; and every read-event of such
a store is present in every later store, where it is the only read-event of
its name, so with the same `dateRead`. -/
theorem read_events_write_once (cs more : List Command) :
    ((runAll emptyDb cs).read.map ReadRow.bookName).Nodup ∧
    (∀ e ∈ (runAll emptyDb cs).read,
      e ∈ (runAll (runAll emptyDb cs) more).read ∧
      ∀ e2 ∈ (runAll (runAll emptyDb cs) more).read,
        e2.bookName = e.bookName → e2.dateRead = e.dateRead) := by
  have hv0 : emptyDb.Valid := by decide
  have hv1 := runAll_valid cs emptyDb hv0
  have hv2 := runAll_valid more (runAll emptyDb cs) hv1
  refine ⟨hv1.2, ?_⟩
  intro e he
  have he2 := runAll_read_mono more (runAll emptyDb cs) e he
  refine ⟨he2, ?_⟩
  intro e2 hmem hk
  rw [readRow_eq_of_key _ hv2.2 e e2 he2 hmem hk]

end Tbr
